import Mathlib

/-!
Verification of the ephemeral artifact store implemented in `main.py` of the
reimbursement-generator service.  The Python service keeps a global dict
`token_store : token -> {"file": filename, "expires_at": datetime}`, writes
generated PDFs/images to disk, serves them through download endpoints, and
reclaims expired entries both lazily (inside the download endpoints) and in a
background sweep (`cleanup_expired_files`).

The embedding below models:
  * the Python dict as an insertion-ordered association list with the exact
    semantics of `get` / subscript-assignment / `pop` (no default);
  * the filesystem as the finite set of existing paths, with `os.remove`
    raising (modelled as `none`) on a missing file;
  * timestamps as integers counting seconds (`datetime.utcnow()` is passed
    in as the parameter `now`; `timedelta(minutes=m)` is `minutes m`);
  * each endpoint as a state-transformer on `SysState`, with `none` standing
    for an uncaught Python exception.
-/

namespace ReimbGen

/-- Tokens are the `uuid4` strings used as keys of `token_store`. -/
abbrev Token := String

/-- Value stored in `token_store`: `{"file": filename, "expires_at": datetime}`. -/
structure TokenEntry where
  file : String
  expires_at : Int
deriving DecidableEq

/-- Dict `token_store`: a Python dict modelled as an insertion-ordered association list. -/
abbrev TokenStore := List (Token × TokenEntry)

/-- Lookup `token_store.get(t)`: the value at key `t`, or `none`. -/
def dictGet : TokenStore → Token → Option TokenEntry
  | [], _ => none
  | (t0, e) :: rest, t => if t0 = t then some e else dictGet rest t

/-- Dict assignment `token_store[t] = e`: replaces the value in place if the key
exists, otherwise appends the new pair (Python dicts preserve insertion order). -/
def dictSet : TokenStore → Token → TokenEntry → TokenStore
  | [], t, e => [(t, e)]
  | (t0, e0) :: rest, t, e =>
    if t0 = t then (t, e) :: rest else (t0, e0) :: dictSet rest t e

/-- Removal `token_store.pop(t)` with no default: removes the key and returns the
remaining dict, or raises `KeyError` (modelled as `none`) if the key is absent. -/
def dictPop : TokenStore → Token → Option TokenStore
  | [], _ => none
  | (t0, e0) :: rest, t =>
    if t0 = t then some rest else (dictPop rest t).map (fun s => (t0, e0) :: s)

/-- The keys of the dict, in insertion order. -/
def keys (s : TokenStore) : List Token := s.map (fun p => p.1)

/-- Python dicts have unique keys; every state built by dict operations satisfies this. -/
def NodupKeys (s : TokenStore) : Prop := (keys s).Nodup

/-- Constant `PDF_STORAGE = "./pdfs"` of `main.py`. -/
def PDF_STORAGE : String := "./pdfs"

/-- Constant `IMAGE_STORAGE = "./images"` of `main.py`. -/
def IMAGE_STORAGE : String := "./images"

/-- Path `os.path.join(PDF_STORAGE, token + ".pdf")` of the generated PDF. -/
def pdfPath (token : Token) : String := PDF_STORAGE ++ "/" ++ token ++ ".pdf"

/-- Path `os.path.join(IMAGE_STORAGE, token + ".png")` of the saved image. -/
def imagePath (token : Token) : String := IMAGE_STORAGE ++ "/" ++ token ++ ".png"

/-- Duration `timedelta(minutes=m)`, in seconds. -/
def minutes (m : Int) : Int := m * 60

/-- The mutable state of the service: the `token_store` dict together with the
set of files currently existing on backing storage. -/
structure SysState where
  token_store : TokenStore
  fs : Finset String
deriving DecidableEq

/-- Endpoint `POST /generate-pdf/prepare/`: generates the PDF at
`./pdfs/{token}.pdf`, then stores `{"file": filename, "expires_at": utcnow + 5 minutes}`
under the fresh `uuid4` token (the token and the current time are parameters). -/
def prepare_pdf (st : SysState) (token : Token) (now : Int) : SysState :=
  { token_store := dictSet st.token_store token ⟨pdfPath token, now + minutes 5⟩
    fs := insert (pdfPath token) st.fs }

/-- Endpoint `POST /invoice/create/`: generates the PDF at `./pdfs/{token}.pdf`, then
stores it with `expires_at = utcnow + 10 minutes`. -/
def create_invoice (st : SysState) (token : Token) (now : Int) : SysState :=
  { token_store := dictSet st.token_store token ⟨pdfPath token, now + minutes 10⟩
    fs := insert (pdfPath token) st.fs }

/-- Endpoint `POST /image/generate/` (success path of the remote API call): writes the
decoded bytes to `./images/{token}.png`, then stores it with
`expires_at = utcnow + 5 minutes`. -/
def generate_image (st : SysState) (token : Token) (now : Int) : SysState :=
  { token_store := dictSet st.token_store token ⟨imagePath token, now + minutes 5⟩
    fs := insert (imagePath token) st.fs }

/-- The outcome of a download endpoint: a `FileResponse` streaming `path` with
a media type and a download filename, or an `HTTPException` with a status code. -/
inductive DownloadResult where
  | fileResponse (path mediaType filename : String)
  | httpError (status : Nat) (detail : String)
deriving DecidableEq

/-- Deletion `os.remove(f)`: deletes the file, or raises `FileNotFoundError`
(modelled as `none`) when the file is absent. -/
def osRemove (fs : Finset String) (f : String) : Option (Finset String) :=
  if f ∈ fs then some (fs.erase f) else none

/-- Common body of the three download endpoints of `main.py` (they are verbatim
copies of each other apart from the media type and download filename):
`entry = token_store.get(token)`; 404 if no entry or the file does not exist;
if `utcnow() > expires_at` then `os.remove(entry["file"])`, `token_store.pop(token)`
and 410; otherwise `FileResponse(entry["file"], media_type, filename)`.
`none` models an uncaught exception. -/
def download_generic (mediaType dlName : String) (st : SysState) (token : Token)
    (now : Int) : Option (DownloadResult × SysState) :=
  match dictGet st.token_store token with
  | none => some (.httpError 404 "Invalid or expired token", st)
  | some entry =>
    if entry.file ∈ st.fs then
      if now > entry.expires_at then
        match osRemove st.fs entry.file, dictPop st.token_store token with
        | some fs2, some store2 => some (.httpError 410 "Token expired", ⟨store2, fs2⟩)
        | _, _ => none
      else some (.fileResponse entry.file mediaType dlName, st)
    else some (.httpError 404 "Invalid or expired token", st)

/-- Endpoint `GET /generate-pdf/download/` for a token. -/
def download_pdf : SysState → Token → Int → Option (DownloadResult × SysState) :=
  download_generic "application/pdf" "reimbursement_form.pdf"

/-- Endpoint `GET /invoice/download/` for a token. -/
def download_invoice : SysState → Token → Int → Option (DownloadResult × SysState) :=
  download_generic "application/pdf" "invoice.pdf"

/-- Endpoint `GET /image/download/` for a token. -/
def download_image : SysState → Token → Int → Option (DownloadResult × SysState) :=
  download_generic "image/png" "generated.png"

/-- One loop-body step of `cleanup_expired_files` for a single expired token:
`file_path = token_store[t]["file"]` (subscript access: `KeyError`, i.e. `none`,
if the key is gone); `if os.path.exists(file_path): os.remove(file_path)`;
`token_store.pop(t)`. -/
def evictOne (st : SysState) (t : Token) : Option SysState :=
  match dictGet st.token_store t with
  | none => none
  | some e =>
    let fs2 := if e.file ∈ st.fs then st.fs.erase e.file else st.fs
    match dictPop st.token_store t with
    | none => none
    | some store2 => some ⟨store2, fs2⟩

/-- Snapshot `expired_tokens`: the tokens whose entries satisfy `now > expires_at`. -/
def expiredTokens (s : TokenStore) (now : Int) : List Token :=
  (s.filter (fun p => now > p.2.expires_at)).map (fun p => p.1)

/-- One full sweep of the body of `cleanup_expired_files`: snapshot the expired
tokens, then delete each one's file (when it exists) and registry row.
`none` models an uncaught exception escaping the background task. -/
def cleanup_sweep (st : SysState) (now : Int) : Option SysState :=
  (expiredTokens st.token_store now).foldlM evictOne st

/-- Interval `await asyncio.sleep(300)` between sweeps. -/
def sweep_interval_seconds : Nat := 300

/-- Exceptions that the sweep body can raise: an `OSError` from `os.remove`
other than a missing file (`storageError`), or a `KeyError` from dict access. -/
inductive SweepError where
  | storageError
  | keyError
deriving DecidableEq

/-- Deletion `os.remove` in an environment where removing a path in `failing` raises an
`OSError` other than `FileNotFoundError` (permissions, I/O error, ...). -/
def osRemoveF (failing : Finset String) (fs : Finset String) (f : String) :
    Except SweepError (Finset String) :=
  if f ∈ failing then .error .storageError else .ok (fs.erase f)

/-- Step `evictOne` in the fallible-removal environment: identical to the source
loop body, but `os.remove` may raise an `OSError`, which (the loop having no
handler) propagates. -/
def evictOneF (failing : Finset String) (st : SysState) (t : Token) :
    Except SweepError SysState :=
  match dictGet st.token_store t with
  | none => .error .keyError
  | some e =>
    if e.file ∈ st.fs then
      match osRemoveF failing st.fs e.file with
      | .error err => .error err
      | .ok fs2 =>
        match dictPop st.token_store t with
        | none => .error .keyError
        | some store2 => .ok ⟨store2, fs2⟩
    else
      match dictPop st.token_store t with
      | none => .error .keyError
      | some store2 => .ok ⟨store2, st.fs⟩

/-- One sweep of `cleanup_expired_files` in the fallible-removal environment. -/
def cleanup_sweep_fallible (failing : Finset String) (st : SysState) (now : Int) :
    Except SweepError SysState :=
  (expiredTokens st.token_store now).foldlM (evictOneF failing) st

/-- Every entry's file is the canonical path derived from its own token
(this is how all three issue endpoints build filenames). -/
def FilesOwned (st : SysState) : Prop :=
  ∀ p ∈ st.token_store, p.2.file = pdfPath p.1 ∨ p.2.file = imagePath p.1

/-- Registry–storage synchronisation: every registry entry's backing file exists. -/
def Synced (st : SysState) : Prop :=
  ∀ p ∈ st.token_store, p.2.file ∈ st.fs

/-- The state invariant maintained by every operation of the service. -/
def Inv (st : SysState) : Prop :=
  NodupKeys st.token_store ∧ FilesOwned st ∧ Synced st

/-- States reachable from the empty store by the operations of `main.py`
(issue endpoints, download endpoints, background sweep).  The `none` results
(uncaught exceptions) produce no successor state. -/
inductive Reachable : SysState → Prop where
  | init : Reachable ⟨[], ∅⟩
  | prepare (st : SysState) (t : Token) (now : Int) :
      Reachable st → Reachable (prepare_pdf st t now)
  | invoice (st : SysState) (t : Token) (now : Int) :
      Reachable st → Reachable (create_invoice st t now)
  | image (st : SysState) (t : Token) (now : Int) :
      Reachable st → Reachable (generate_image st t now)
  | dlPdf (st : SysState) (t : Token) (now : Int) (r : DownloadResult) (st2 : SysState) :
      Reachable st → download_pdf st t now = some (r, st2) → Reachable st2
  | dlInvoice (st : SysState) (t : Token) (now : Int) (r : DownloadResult) (st2 : SysState) :
      Reachable st → download_invoice st t now = some (r, st2) → Reachable st2
  | dlImage (st : SysState) (t : Token) (now : Int) (r : DownloadResult) (st2 : SysState) :
      Reachable st → download_image st t now = some (r, st2) → Reachable st2
  | sweep (st : SysState) (now : Int) (st2 : SysState) :
      Reachable st → cleanup_sweep st now = some st2 → Reachable st2

/-- The set of files belonging to the given tokens, looked up in the dict
(used to describe the effect of one sweep on storage). -/
def filesOfList (ts : List Token) (s : TokenStore) : Finset String :=
  (ts.filterMap (fun t => (dictGet s t).map (fun e => e.file))).toFinset

/-! ### Lemmas about the dict operations -/

theorem dictGet_dictSet_self (s : TokenStore) (t : Token) (e : TokenEntry) :
    dictGet (dictSet s t e) t = some e := by
  induction s with
  | nil => simp [dictGet, dictSet]
  | cons p rest ih =>
    obtain ⟨t0, e0⟩ := p
    by_cases h : t0 = t
    · simp [dictSet, h, dictGet]
    · simp [dictSet, h, dictGet, ih]

theorem dictGet_dictSet_ne (s : TokenStore) {t t' : Token} (e : TokenEntry)
    (h : t' ≠ t) : dictGet (dictSet s t e) t' = dictGet s t' := by
  have hne : ¬ t = t' := fun hc => h hc.symm
  induction s with
  | nil => simp [dictGet, dictSet, hne]
  | cons p rest ih =>
    obtain ⟨t0, e0⟩ := p
    by_cases hp : t0 = t
    · subst hp
      simp [dictSet, dictGet, hne]
    · by_cases hp' : t0 = t'
      · subst hp'
        simp [dictSet, dictGet, h]
      · simp [dictSet, hp, dictGet, hp', ih]

theorem dictGet_eq_none_iff (s : TokenStore) (t : Token) :
    dictGet s t = none ↔ t ∉ keys s := by
  induction s with
  | nil => simp [dictGet, keys]
  | cons p rest ih =>
    obtain ⟨t0, e0⟩ := p
    by_cases h : t0 = t
    · simp [dictGet, h, keys]
    · simp only [dictGet, if_neg h, ih, keys, List.map_cons, List.mem_cons, not_or]
      constructor
      · exact fun hr => ⟨fun hc => h hc.symm, hr⟩
      · exact fun hr => hr.2

theorem mem_keys_of_dictGet {s : TokenStore} {t : Token} {e : TokenEntry}
    (h : dictGet s t = some e) : t ∈ keys s := by
  by_contra hc
  rw [← dictGet_eq_none_iff] at hc
  simp [hc] at h

theorem dictPop_isSome {s : TokenStore} {t : Token} {e : TokenEntry}
    (h : dictGet s t = some e) : ∃ s2, dictPop s t = some s2 := by
  induction s with
  | nil => cases h
  | cons p rest ih =>
    obtain ⟨t0, e0⟩ := p
    by_cases hp : t0 = t
    · exact ⟨rest, by simp [dictPop, hp]⟩
    · simp only [dictGet, if_neg hp] at h
      obtain ⟨s2, hs2⟩ := ih h
      exact ⟨(t0, e0) :: s2, by simp [dictPop, hp, hs2]⟩

theorem filter_ne_eq_self {s : TokenStore} {t : Token} (h : t ∉ keys s) :
    s.filter (fun p => p.1 ≠ t) = s := by
  induction s with
  | nil => rfl
  | cons p rest ih =>
    obtain ⟨t0, e0⟩ := p
    simp only [keys, List.map_cons, List.mem_cons, not_or] at h
    rw [List.filter_cons, if_pos (by simp; exact fun hc => h.1 hc.symm)]
    rw [ih h.2]

theorem dictPop_eq_filter {s : TokenStore} {t : Token} {s2 : TokenStore}
    (hnd : NodupKeys s) (h : dictPop s t = some s2) :
    s2 = s.filter (fun p => p.1 ≠ t) := by
  induction s generalizing s2 with
  | nil => cases h
  | cons p rest ih =>
    obtain ⟨t0, e0⟩ := p
    simp only [NodupKeys, keys, List.map_cons, List.nodup_cons] at hnd
    by_cases hp : t0 = t
    · simp only [dictPop, if_pos hp] at h
      cases h
      rw [List.filter_cons, if_neg (by simp [hp])]
      exact (filter_ne_eq_self (hp ▸ hnd.1)).symm
    · simp only [dictPop, if_neg hp, Option.map_eq_some'] at h
      obtain ⟨s3, hs3, hs2⟩ := h
      subst hs2
      rw [List.filter_cons, if_pos (by simp [hp])]
      exact congrArg (List.cons (t0, e0)) (ih hnd.2 hs3)

theorem dictGet_mem {s : TokenStore} {t : Token} {e : TokenEntry}
    (h : dictGet s t = some e) : (t, e) ∈ s := by
  induction s with
  | nil => cases h
  | cons p rest ih =>
    obtain ⟨t0, e0⟩ := p
    by_cases hp : t0 = t
    · simp only [dictGet, if_pos hp] at h
      injection h with h
      subst h
      subst hp
      exact List.mem_cons_self _ _
    · simp only [dictGet, if_neg hp] at h
      exact List.mem_cons_of_mem _ (ih h)

theorem dictGet_of_mem {s : TokenStore} {t : Token} {e : TokenEntry}
    (hnd : NodupKeys s) (h : (t, e) ∈ s) : dictGet s t = some e := by
  induction s with
  | nil => cases h
  | cons p rest ih =>
    obtain ⟨t0, e0⟩ := p
    simp only [NodupKeys, keys, List.map_cons, List.nodup_cons] at hnd
    rcases List.mem_cons.mp h with h1 | h1
    · injection h1 with ht he
      subst ht
      subst he
      simp [dictGet]
    · have hp : ¬ t0 = t := fun hc => hnd.1 (by
        rw [hc]
        exact List.mem_map.mpr ⟨(t, e), h1, rfl⟩)
      simp only [dictGet, if_neg hp]
      exact ih hnd.2 h1

theorem keys_dictSet_subset (s : TokenStore) (t : Token) (e : TokenEntry) :
    keys (dictSet s t e) ⊆ t :: keys s := by
  induction s with
  | nil =>
    intro x hx
    simp [dictSet, keys] at hx
    simp [keys, hx]
  | cons p rest ih =>
    obtain ⟨t0, e0⟩ := p
    by_cases hp : t0 = t
    · subst hp
      intro x hx
      rw [show dictSet ((t0, e0) :: rest) t0 e = (t0, e) :: rest from by simp [dictSet]] at hx
      simp only [keys, List.map_cons, List.mem_cons] at hx ⊢
      tauto
    · simp only [dictSet, if_neg hp, keys, List.map_cons]
      intro x hx
      simp only [List.mem_cons] at hx ⊢
      rcases hx with hx | hx
      · tauto
      · rcases List.mem_cons.mp (ih hx) with h1 | h1
        · tauto
        · right; right; exact h1

theorem nodupKeys_dictSet {s : TokenStore} (t : Token) (e : TokenEntry)
    (hnd : NodupKeys s) : NodupKeys (dictSet s t e) := by
  induction s with
  | nil => simp [dictSet, NodupKeys, keys]
  | cons p rest ih =>
    obtain ⟨t0, e0⟩ := p
    simp only [NodupKeys, keys, List.map_cons, List.nodup_cons] at hnd
    by_cases hp : t0 = t
    · subst hp
      simpa [NodupKeys, dictSet, keys, List.nodup_cons] using hnd
    · have h2 := ih hnd.2
      simp only [NodupKeys, dictSet, if_neg hp, keys, List.map_cons, List.nodup_cons]
      refine ⟨fun hc => ?_, h2⟩
      rcases List.mem_cons.mp (keys_dictSet_subset rest t e hc) with h1 | h1
      · exact hp h1
      · exact hnd.1 h1

theorem mem_dictSet {s : TokenStore} {t : Token} {e : TokenEntry} {p : Token × TokenEntry}
    (h : p ∈ dictSet s t e) : p = (t, e) ∨ p ∈ s := by
  induction s with
  | nil => simpa [dictSet] using h
  | cons q rest ih =>
    obtain ⟨t0, e0⟩ := q
    by_cases hq : t0 = t
    · rcases List.mem_cons.mp (by simpa [dictSet, hq] using h) with h1 | h1
      · exact Or.inl h1
      · exact Or.inr (List.mem_cons_of_mem _ h1)
    · rcases List.mem_cons.mp (by simpa [dictSet, hq] using h) with h1 | h1
      · exact Or.inr (List.mem_cons.mpr (Or.inl h1))
      · rcases ih h1 with h2 | h2
        · exact Or.inl h2
        · exact Or.inr (List.mem_cons_of_mem _ h2)

theorem nodupKeys_filter {s : TokenStore} (q : Token × TokenEntry → Bool)
    (hnd : NodupKeys s) : NodupKeys (s.filter q) := by
  unfold NodupKeys keys at hnd ⊢
  exact hnd.sublist ((List.filter_sublist s).map (fun p => p.1))

theorem dictGet_filter_ne {s : TokenStore} {t t' : Token} (h : t' ≠ t) :
    dictGet (s.filter (fun p => p.1 ≠ t)) t' = dictGet s t' := by
  induction s with
  | nil => rfl
  | cons p rest ih =>
    obtain ⟨t0, e0⟩ := p
    by_cases hp : t0 = t
    · rw [List.filter_cons, if_neg (by simp [hp])]
      rw [ih]
      have hne : ¬ t0 = t' := by rw [hp]; exact fun hc => h hc.symm
      simp only [dictGet, if_neg hne]
    · rw [List.filter_cons, if_pos (by simp [hp])]
      by_cases hp' : t0 = t'
      · simp only [dictGet, if_pos hp']
      · simp only [dictGet, if_neg hp', ih]

theorem dictGet_filter_self (s : TokenStore) (t : Token) :
    dictGet (s.filter (fun p => p.1 ≠ t)) t = none := by
  rw [dictGet_eq_none_iff]
  intro hc
  simp only [keys, List.mem_map] at hc
  obtain ⟨p, hp, rfl⟩ := hc
  have := List.of_mem_filter hp
  simp at this

/-! ### Lemmas about paths (string level) -/

theorem strData_append (a b : String) : (a ++ b).data = a.data ++ b.data := rfl

theorem str_ext {a b : String} (h : a.data = b.data) : a = b :=
  congrArg String.mk h

theorem pdfPath_inj {t u : Token} (h : pdfPath t = pdfPath u) : t = u := by
  have hd := congrArg String.data h
  simp only [pdfPath, PDF_STORAGE, strData_append] at hd
  exact str_ext (List.append_cancel_left (List.append_cancel_right hd))

theorem imagePath_inj {t u : Token} (h : imagePath t = imagePath u) : t = u := by
  have hd := congrArg String.data h
  simp only [imagePath, IMAGE_STORAGE, strData_append] at hd
  exact str_ext (List.append_cancel_left (List.append_cancel_right hd))

theorem pdfPath_ne_imagePath (t u : Token) : pdfPath t ≠ imagePath u := by
  intro h
  have hd := congrArg String.data h
  simp only [pdfPath, imagePath, PDF_STORAGE, IMAGE_STORAGE, strData_append,
    List.append_assoc] at hd
  have h2 := congrArg (fun l => l[2]?) hd
  simp at h2

/-! ### Case lemmas for the download endpoints and the sweep body -/

theorem download_generic_absent (mt fn : String) (st : SysState) (t : Token) (now : Int)
    (h : dictGet st.token_store t = none) :
    download_generic mt fn st t now = some (.httpError 404 "Invalid or expired token", st) := by
  simp [download_generic, h]

theorem download_generic_missing (mt fn : String) {st : SysState} {t : Token} {e : TokenEntry}
    (now : Int) (h : dictGet st.token_store t = some e) (hf : e.file ∉ st.fs) :
    download_generic mt fn st t now = some (.httpError 404 "Invalid or expired token", st) := by
  simp [download_generic, h, hf]

theorem download_generic_live (mt fn : String) {st : SysState} {t : Token} {e : TokenEntry}
    {now : Int} (h : dictGet st.token_store t = some e) (hf : e.file ∈ st.fs)
    (hl : ¬ now > e.expires_at) :
    download_generic mt fn st t now = some (.fileResponse e.file mt fn, st) := by
  simp [download_generic, h, hf, hl]

theorem download_generic_expired (mt fn : String) {st : SysState} {t : Token} {e : TokenEntry}
    {now : Int} (h : dictGet st.token_store t = some e) (hf : e.file ∈ st.fs)
    (hx : now > e.expires_at) :
    ∃ store2, dictPop st.token_store t = some store2 ∧
      download_generic mt fn st t now =
        some (.httpError 410 "Token expired", ⟨store2, st.fs.erase e.file⟩) := by
  obtain ⟨store2, hs2⟩ := dictPop_isSome h
  refine ⟨store2, hs2, ?_⟩
  simp [download_generic, h, hf, hx, osRemove, hs2]

theorem evictOne_eq {st : SysState} {t : Token} {e : TokenEntry}
    (h : dictGet st.token_store t = some e) :
    ∃ store2, dictPop st.token_store t = some store2 ∧
      evictOne st t = some ⟨store2, st.fs.erase e.file⟩ := by
  obtain ⟨store2, hs2⟩ := dictPop_isSome h
  refine ⟨store2, hs2, ?_⟩
  by_cases hf : e.file ∈ st.fs
  · simp [evictOne, h, hs2, hf]
  · simp [evictOne, h, hs2, hf, Finset.erase_eq_of_not_mem hf]

theorem evictOne_absent {st : SysState} {t : Token}
    (h : dictGet st.token_store t = none) : evictOne st t = none := by
  simp [evictOne, h]

/-! ### The registry–storage invariant and its preservation -/

theorem file_key_eq {st : SysState} (hfo : FilesOwned st) {p q : Token × TokenEntry}
    (hp : p ∈ st.token_store) (hq : q ∈ st.token_store) (h : p.2.file = q.2.file) :
    p.1 = q.1 := by
  rcases hfo p hp with h1 | h1 <;> rcases hfo q hq with h2 | h2
  · exact pdfPath_inj (h1.symm.trans (h.trans h2))
  · exact absurd (h1.symm.trans (h.trans h2)) (pdfPath_ne_imagePath _ _)
  · exact absurd (h2.symm.trans (h.symm.trans h1)) (pdfPath_ne_imagePath _ _)
  · exact imagePath_inj (h1.symm.trans (h.trans h2))

theorem inv_issue {st : SysState} (t : Token) (e : TokenEntry)
    (howned : e.file = pdfPath t ∨ e.file = imagePath t) (hInv : Inv st) :
    Inv ⟨dictSet st.token_store t e, insert e.file st.fs⟩ := by
  obtain ⟨hnd, hfo, hsy⟩ := hInv
  refine ⟨nodupKeys_dictSet t e hnd, ?_, ?_⟩
  · intro p hp
    rcases mem_dictSet hp with h1 | h1
    · subst h1
      exact howned
    · exact hfo p h1
  · intro p hp
    rcases mem_dictSet hp with h1 | h1
    · subst h1
      exact Finset.mem_insert_self _ _
    · exact Finset.mem_insert_of_mem (hsy p h1)

theorem inv_erase_filter {st : SysState} {t : Token} {e : TokenEntry}
    (hInv : Inv st) (hget : dictGet st.token_store t = some e) :
    Inv ⟨st.token_store.filter (fun p => p.1 ≠ t), st.fs.erase e.file⟩ := by
  obtain ⟨hnd, hfo, hsy⟩ := hInv
  refine ⟨nodupKeys_filter _ hnd, ?_, ?_⟩
  · intro p hp
    exact hfo p (List.mem_of_mem_filter hp)
  · intro p hp
    have hpmem := List.mem_of_mem_filter hp
    have hpne : p.1 ≠ t := by simpa using List.of_mem_filter hp
    refine Finset.mem_erase.mpr ⟨?_, hsy p hpmem⟩
    intro hc
    exact hpne (file_key_eq hfo hpmem (dictGet_mem hget) hc)

theorem evictOne_inv {st : SysState} {t : Token} {st2 : SysState}
    (hInv : Inv st) (h : evictOne st t = some st2) : Inv st2 := by
  match hget : dictGet st.token_store t with
  | none =>
    rw [evictOne_absent hget] at h
    cases h
  | some e =>
    obtain ⟨store2, hpop, heq⟩ := evictOne_eq hget
    rw [heq] at h
    injection h with h
    rw [← h]
    have hfilter := dictPop_eq_filter hInv.1 hpop
    rw [hfilter]
    exact inv_erase_filter hInv hget

theorem foldlM_evictOne_inv (ts : List Token) {st st2 : SysState}
    (hInv : Inv st) (h : ts.foldlM evictOne st = some st2) : Inv st2 := by
  induction ts generalizing st with
  | nil =>
    simp only [List.foldlM_nil] at h
    injection h with h
    rw [← h]
    exact hInv
  | cons t rest ih =>
    rw [List.foldlM_cons] at h
    match he : evictOne st t with
    | none =>
      rw [he] at h
      cases h
    | some st1 =>
      rw [he] at h
      simp only [Option.bind_eq_bind, Option.some_bind] at h
      exact ih (evictOne_inv hInv he) h

theorem cleanup_sweep_inv {st st2 : SysState} {now : Int}
    (hInv : Inv st) (h : cleanup_sweep st now = some st2) : Inv st2 :=
  foldlM_evictOne_inv _ hInv h

theorem download_generic_inv (mt fn : String) {st : SysState} {t : Token} {now : Int}
    {out : DownloadResult × SysState} (hInv : Inv st)
    (h : download_generic mt fn st t now = some out) : Inv out.2 := by
  match hget : dictGet st.token_store t with
  | none =>
    rw [download_generic_absent mt fn st t now hget] at h
    injection h with h
    rw [← h]
    exact hInv
  | some e =>
    by_cases hf : e.file ∈ st.fs
    · by_cases hx : now > e.expires_at
      · obtain ⟨store2, hpop, heq⟩ := download_generic_expired mt fn hget hf hx
        rw [heq] at h
        injection h with h
        rw [← h]
        have hfilter := dictPop_eq_filter hInv.1 hpop
        show Inv ⟨store2, st.fs.erase e.file⟩
        rw [hfilter]
        exact inv_erase_filter hInv hget
      · rw [download_generic_live mt fn hget hf hx] at h
        injection h with h
        rw [← h]
        exact hInv
    · rw [download_generic_missing mt fn now hget hf] at h
      injection h with h
      rw [← h]
      exact hInv

theorem reachable_inv {st : SysState} (h : Reachable st) : Inv st := by
  induction h with
  | init => refine ⟨List.nodup_nil, ?_, ?_⟩ <;> intro p hp <;> cases hp
  | prepare st t now _ ih => exact inv_issue t _ (Or.inl rfl) ih
  | invoice st t now _ ih => exact inv_issue t _ (Or.inl rfl) ih
  | image st t now _ ih => exact inv_issue t _ (Or.inr rfl) ih
  | dlPdf st t now r st2 _ heq ih =>
    exact download_generic_inv "application/pdf" "reimbursement_form.pdf" ih heq
  | dlInvoice st t now r st2 _ heq ih =>
    exact download_generic_inv "application/pdf" "invoice.pdf" ih heq
  | dlImage st t now r st2 _ heq ih =>
    exact download_generic_inv "image/png" "generated.png" ih heq
  | sweep st now st2 _ heq ih => exact cleanup_sweep_inv ih heq

/-! ### Exact characterisation of one sweep -/

theorem filterMap_get_congr (ts : List Token) (s1 s2 : TokenStore)
    (h : ∀ t ∈ ts, dictGet s1 t = dictGet s2 t) :
    ts.filterMap (fun t => (dictGet s1 t).map (fun e => e.file)) =
      ts.filterMap (fun t => (dictGet s2 t).map (fun e => e.file)) := by
  induction ts with
  | nil => rfl
  | cons t rest ih =>
    have ht := h t (List.mem_cons_self _ _)
    have hrest := ih (fun u hu => h u (List.mem_cons_of_mem _ hu))
    simp only [List.filterMap_cons, ht, hrest]

theorem filesOfList_congr {ts : List Token} {s1 s2 : TokenStore}
    (h : ∀ t ∈ ts, dictGet s1 t = dictGet s2 t) :
    filesOfList ts s1 = filesOfList ts s2 := by
  unfold filesOfList
  rw [filterMap_get_congr ts s1 s2 h]

theorem filesOfList_cons {ts : List Token} {s : TokenStore} {t : Token} {e : TokenEntry}
    (hget : dictGet s t = some e) :
    filesOfList (t :: ts) s = insert e.file (filesOfList ts s) := by
  unfold filesOfList
  simp [List.filterMap_cons, hget]

theorem mem_filesOfList {ts : List Token} {s : TokenStore} {t : Token} {e : TokenEntry}
    (ht : t ∈ ts) (hget : dictGet s t = some e) : e.file ∈ filesOfList ts s := by
  unfold filesOfList
  rw [List.mem_toFinset]
  exact List.mem_filterMap.mpr ⟨t, ht, by rw [hget]; rfl⟩

theorem mem_filesOfList_elim {ts : List Token} {s : TokenStore} {f : String}
    (h : f ∈ filesOfList ts s) :
    ∃ t ∈ ts, ∃ e, dictGet s t = some e ∧ e.file = f := by
  unfold filesOfList at h
  rw [List.mem_toFinset] at h
  obtain ⟨t, ht, hf⟩ := List.mem_filterMap.mp h
  obtain ⟨e, he, hef⟩ := Option.map_eq_some'.mp hf
  exact ⟨t, ht, e, he, hef⟩

theorem expiredTokens_nodup {s : TokenStore} (now : Int) (hnd : NodupKeys s) :
    (expiredTokens s now).Nodup := by
  unfold NodupKeys keys at hnd
  unfold expiredTokens
  exact hnd.sublist ((List.filter_sublist s).map (fun p => p.1))

theorem expiredTokens_present {s : TokenStore} {now : Int} (hnd : NodupKeys s) :
    ∀ t ∈ expiredTokens s now, ∃ e, dictGet s t = some e ∧ now > e.expires_at := by
  intro t ht
  unfold expiredTokens at ht
  obtain ⟨p, hp, rfl⟩ := List.mem_map.mp ht
  have hmem := List.mem_of_mem_filter hp
  have hexp : now > p.2.expires_at := by simpa using List.of_mem_filter hp
  exact ⟨p.2, dictGet_of_mem hnd hmem, hexp⟩

theorem mem_expiredTokens_of {s : TokenStore} {now : Int} {p : Token × TokenEntry}
    (hmem : p ∈ s) (hexp : now > p.2.expires_at) : p.1 ∈ expiredTokens s now := by
  unfold expiredTokens
  exact List.mem_map.mpr ⟨p, List.mem_filter.mpr ⟨hmem, by simpa using hexp⟩, rfl⟩

theorem not_mem_expiredTokens {s : TokenStore} {now : Int} {p : Token × TokenEntry}
    (hnd : NodupKeys s) (hmem : p ∈ s) (hexp : ¬ now > p.2.expires_at) :
    p.1 ∉ expiredTokens s now := by
  intro hc
  obtain ⟨e, hget, he⟩ := expiredTokens_present hnd _ hc
  have hgp := dictGet_of_mem hnd hmem
  rw [hgp] at hget
  injection hget with hget
  rw [← hget] at he
  exact hexp he

theorem foldlM_evictOne_spec (ts : List Token) (st : SysState)
    (hnd : NodupKeys st.token_store) (hts : ts.Nodup)
    (hpres : ∀ t ∈ ts, ∃ e, dictGet st.token_store t = some e) :
    ∃ st2, ts.foldlM evictOne st = some st2 ∧
      st2.token_store = st.token_store.filter (fun p => p.1 ∉ ts) ∧
      st2.fs = st.fs \ filesOfList ts st.token_store := by
  induction ts generalizing st with
  | nil =>
    refine ⟨st, rfl, ?_, ?_⟩
    · exact (List.filter_eq_self.mpr (fun p hp => by simp)).symm
    · simp [filesOfList]
  | cons t rest ih =>
    obtain ⟨e, hget⟩ := hpres t (List.mem_cons_self _ _)
    obtain ⟨store2, hpop, heq⟩ := evictOne_eq hget
    have hfilter := dictPop_eq_filter hnd hpop
    have hnodup := List.nodup_cons.mp hts
    have hst1nd : NodupKeys store2 := by
      rw [hfilter]
      exact nodupKeys_filter _ hnd
    have hgets : ∀ u ∈ rest, dictGet store2 u = dictGet st.token_store u := by
      intro u hu
      have hune : u ≠ t := fun hc => hnodup.1 (hc ▸ hu)
      rw [hfilter]
      exact dictGet_filter_ne hune
    have hrest : ∀ u ∈ rest, ∃ e2, dictGet store2 u = some e2 := by
      intro u hu
      obtain ⟨e2, he2⟩ := hpres u (List.mem_cons_of_mem _ hu)
      exact ⟨e2, (hgets u hu).trans he2⟩
    obtain ⟨st2, hfold, hstore, hfs⟩ :=
      ih (⟨store2, st.fs.erase e.file⟩ : SysState) hst1nd hnodup.2 hrest
    have hstore2 : st2.token_store = store2.filter (fun p => p.1 ∉ rest) := hstore
    have hfs2 : st2.fs = (st.fs.erase e.file) \ filesOfList rest store2 := hfs
    refine ⟨st2, ?_, ?_, ?_⟩
    · rw [List.foldlM_cons, heq]
      simpa using hfold
    · rw [hstore2, hfilter, List.filter_filter]
      refine List.filter_congr ?_
      intro p hp
      by_cases h1 : p.1 = t <;> by_cases h2 : p.1 ∈ rest <;>
        simp [h1, h2, List.mem_cons]
    · rw [hfs2, filesOfList_congr hgets, Finset.erase_eq, sdiff_sdiff,
        filesOfList_cons hget, Finset.insert_eq, Finset.sup_eq_union]

theorem cleanup_sweep_total (st : SysState) (now : Int) (hnd : NodupKeys st.token_store) :
    ∃ st2, cleanup_sweep st now = some st2 := by
  obtain ⟨st2, h, _⟩ := foldlM_evictOne_spec (expiredTokens st.token_store now) st hnd
    (expiredTokens_nodup now hnd)
    (fun u hu => (expiredTokens_present hnd u hu).imp (fun e h => h.1))
  exact ⟨st2, h⟩

/-! ### The sweep in the fallible-removal environment -/

theorem evictOneF_eq {failing : Finset String} {st : SysState} {t : Token} {e : TokenEntry}
    (hget : dictGet st.token_store t = some e) (hok : e.file ∉ failing) :
    ∃ store2, dictPop st.token_store t = some store2 ∧
      evictOneF failing st t = .ok ⟨store2, st.fs.erase e.file⟩ := by
  obtain ⟨store2, hs2⟩ := dictPop_isSome hget
  refine ⟨store2, hs2, ?_⟩
  by_cases hf : e.file ∈ st.fs
  · simp [evictOneF, hget, hf, osRemoveF, hok, hs2]
  · simp [evictOneF, hget, hf, hs2, Finset.erase_eq_of_not_mem hf]

theorem evictOneF_error {failing : Finset String} {st : SysState} {t : Token} {e : TokenEntry}
    (hget : dictGet st.token_store t = some e) (hf : e.file ∈ st.fs)
    (hbad : e.file ∈ failing) :
    evictOneF failing st t = .error .storageError := by
  simp [evictOneF, hget, hf, osRemoveF, hbad]

theorem foldlM_evictOneF_error (failing : Finset String) (ts : List Token) :
    ∀ st : SysState, NodupKeys st.token_store → ts.Nodup →
      (∀ u ∈ ts, ∃ e2, dictGet st.token_store u = some e2) →
      FilesOwned st → Synced st →
      ∀ t ∈ ts, ∀ e : TokenEntry, dictGet st.token_store t = some e →
      e.file ∈ failing →
      ts.foldlM (evictOneF failing) st = .error .storageError := by
  induction ts with
  | nil =>
    intro st _ _ _ _ _ t ht
    cases ht
  | cons u rest ih =>
    intro st hnd hts hpres hfo hsy t ht e hget hbad
    obtain ⟨eu, hgetu⟩ := hpres u (List.mem_cons_self _ _)
    by_cases hbadu : eu.file ∈ failing
    · have hfu : eu.file ∈ st.fs := hsy _ (dictGet_mem hgetu)
      rw [List.foldlM_cons, evictOneF_error hgetu hfu hbadu]
      rfl
    · have htrest : t ∈ rest := by
        rcases List.mem_cons.mp ht with h1 | h1
        · subst h1
          rw [hget] at hgetu
          injection hgetu with h2
          rw [← h2] at hbadu
          exact absurd hbad hbadu
        · exact h1
      obtain ⟨store2, hpop, hok⟩ := evictOneF_eq hgetu hbadu
      have hfilter := dictPop_eq_filter hnd hpop
      have hnodup := List.nodup_cons.mp hts
      have hInv1 := inv_erase_filter ⟨hnd, hfo, hsy⟩ hgetu
      have hst1 : (⟨store2, st.fs.erase eu.file⟩ : SysState) =
          ⟨st.token_store.filter (fun p => p.1 ≠ u), st.fs.erase eu.file⟩ := by
        rw [hfilter]
      have hnd1 : NodupKeys store2 := by
        rw [hfilter]
        exact nodupKeys_filter _ hnd
      have hgets : ∀ v ∈ rest, dictGet store2 v = dictGet st.token_store v := by
        intro v hv
        have hvne : v ≠ u := fun hc => hnodup.1 (hc ▸ hv)
        rw [hfilter]
        exact dictGet_filter_ne hvne
      have hpres1 : ∀ v ∈ rest, ∃ e2, dictGet store2 v = some e2 := by
        intro v hv
        obtain ⟨e2, he2⟩ := hpres v (List.mem_cons_of_mem _ hv)
        exact ⟨e2, (hgets v hv).trans he2⟩
      have hfo1 : FilesOwned (⟨store2, st.fs.erase eu.file⟩ : SysState) := by
        rw [hst1]
        exact hInv1.2.1
      have hsy1 : Synced (⟨store2, st.fs.erase eu.file⟩ : SysState) := by
        rw [hst1]
        exact hInv1.2.2
      have hget1 : dictGet store2 t = some e := (hgets t htrest).trans hget
      rw [List.foldlM_cons, hok]
      exact ih (⟨store2, st.fs.erase eu.file⟩ : SysState) hnd1 hnodup.2 hpres1
        hfo1 hsy1 t htrest e hget1 hbad

/-! ### Claim theorems -/

/-- C1: for every issued token, resolving it immediately after issue — at any
time not later than the entry's `expires_at` — returns the very file written
at issuance, served with the endpoint's media type and download filename, and
leaves the state unchanged; this holds for the reimbursement-form, invoice and
image endpoints alike. -/
theorem C1_resolve_after_issue (st : SysState) (t : Token) (nowI nowR : Int)
    (h5 : nowR ≤ nowI + minutes 5) (h10 : nowR ≤ nowI + minutes 10) :
    download_pdf (prepare_pdf st t nowI) t nowR =
      some (.fileResponse (pdfPath t) "application/pdf" "reimbursement_form.pdf",
        prepare_pdf st t nowI) ∧
    download_invoice (create_invoice st t nowI) t nowR =
      some (.fileResponse (pdfPath t) "application/pdf" "invoice.pdf",
        create_invoice st t nowI) ∧
    download_image (generate_image st t nowI) t nowR =
      some (.fileResponse (imagePath t) "image/png" "generated.png",
        generate_image st t nowI) := by
  unfold download_pdf download_invoice download_image
  exact ⟨download_generic_live "application/pdf" "reimbursement_form.pdf"
      (dictGet_dictSet_self st.token_store t ⟨pdfPath t, nowI + minutes 5⟩)
      (Finset.mem_insert_self _ _) (not_lt.mpr h5),
   download_generic_live "application/pdf" "invoice.pdf"
      (dictGet_dictSet_self st.token_store t ⟨pdfPath t, nowI + minutes 10⟩)
      (Finset.mem_insert_self _ _) (not_lt.mpr h10),
   download_generic_live "image/png" "generated.png"
      (dictGet_dictSet_self st.token_store t ⟨imagePath t, nowI + minutes 5⟩)
      (Finset.mem_insert_self _ _) (not_lt.mpr h5)⟩

/-- Witness for C1 at the empty store, token "t", issue and resolve at time 0. -/
theorem C1_resolve_after_issue_witness :
    download_pdf (prepare_pdf ⟨[], ∅⟩ "t" 0) "t" 0 =
      some (.fileResponse (pdfPath "t") "application/pdf" "reimbursement_form.pdf",
        prepare_pdf ⟨[], ∅⟩ "t" 0) :=
  (C1_resolve_after_issue ⟨[], ∅⟩ "t" 0 0 (by decide) (by decide)).1

/-- C2 fails as stated: at `now = expires_at` (hence `now ≥ expires_at`) the
download endpoint still serves the file and evicts nothing, because the code
tests the strict `now > expires_at`; the `Expired` (410) outcome the claim
requires does not occur at this input. -/
theorem C2_counterexample :
    download_pdf ⟨[("t", ⟨pdfPath "t", 100⟩)], {pdfPath "t"}⟩ "t" 100 =
      some (.fileResponse (pdfPath "t") "application/pdf" "reimbursement_form.pdf",
        ⟨[("t", ⟨pdfPath "t", 100⟩)], {pdfPath "t"}⟩) ∧
    DownloadResult.fileResponse (pdfPath "t") "application/pdf" "reimbursement_form.pdf" ≠
      DownloadResult.httpError 410 "Token expired" := by
  constructor
  · decide
  · decide

/-- C2 amended (strict comparison): once `now > expires_at`, the first
Resolve of a token whose file exists deletes the blob and the registry entry
and returns 410, and every Resolve thereafter returns 404 without further
change; 410 and 404 are distinct. -/
theorem C2_expiry_eviction (st : SysState) (t : Token) (e : TokenEntry) (now : Int)
    (hnd : NodupKeys st.token_store) (hget : dictGet st.token_store t = some e)
    (hf : e.file ∈ st.fs) (hx : now > e.expires_at) :
    ∃ st2, download_pdf st t now = some (.httpError 410 "Token expired", st2) ∧
      download_invoice st t now = some (.httpError 410 "Token expired", st2) ∧
      dictGet st2.token_store t = none ∧ e.file ∉ st2.fs ∧
      (∀ now2 : Int, download_pdf st2 t now2 =
        some (.httpError 404 "Invalid or expired token", st2)) ∧
      (∀ now2 : Int, download_invoice st2 t now2 =
        some (.httpError 404 "Invalid or expired token", st2)) ∧
      (410 : Nat) ≠ 404 := by
  obtain ⟨store2, hpop, heq⟩ :=
    download_generic_expired "application/pdf" "reimbursement_form.pdf" hget hf hx
  obtain ⟨store2b, hpopb, heqb⟩ :=
    download_generic_expired "application/pdf" "invoice.pdf" hget hf hx
  rw [hpop] at hpopb
  injection hpopb with hpopb
  rw [← hpopb] at heqb
  have hfilter := dictPop_eq_filter hnd hpop
  have hnone : dictGet store2 t = none := by
    rw [hfilter]
    exact dictGet_filter_self _ _
  refine ⟨⟨store2, st.fs.erase e.file⟩, heq, heqb, hnone, Finset.not_mem_erase _ _,
    ?_, ?_, by decide⟩
  · intro now2
    exact download_generic_absent "application/pdf" "reimbursement_form.pdf" _ t now2 hnone
  · intro now2
    exact download_generic_absent "application/pdf" "invoice.pdf" _ t now2 hnone

/-- Witness for C2 amended on a one-entry store, expiry 10, resolve at 50. -/
theorem C2_expiry_eviction_witness :
    ∃ st2, download_pdf ⟨[("u", ⟨pdfPath "u", 10⟩)], {pdfPath "u"}⟩ "u" 50 =
      some (.httpError 410 "Token expired", st2) ∧
      download_invoice ⟨[("u", ⟨pdfPath "u", 10⟩)], {pdfPath "u"}⟩ "u" 50 =
        some (.httpError 410 "Token expired", st2) ∧
      dictGet st2.token_store "u" = none ∧ pdfPath "u" ∉ st2.fs ∧
      (∀ now2 : Int, download_pdf st2 "u" now2 =
        some (.httpError 404 "Invalid or expired token", st2)) ∧
      (∀ now2 : Int, download_invoice st2 "u" now2 =
        some (.httpError 404 "Invalid or expired token", st2)) ∧
      (410 : Nat) ≠ 404 :=
  C2_expiry_eviction _ "u" ⟨pdfPath "u", 10⟩ 50 (by unfold NodupKeys keys; decide)
    (by decide) (by decide) (by decide)

/-- C3: registry–storage synchronisation: in every state reachable from the
empty store by issue, download and sweep operations, every registry entry's
backing file still exists on storage — eviction always removes blob and entry
together, so no registry entry ever points at deleted storage. -/
theorem C3_registry_storage_sync {st : SysState} (h : Reachable st) :
    ∀ p ∈ st.token_store, p.2.file ∈ st.fs :=
  (reachable_inv h).2.2

/-- Witness for C3 at the state reached by one issue from the empty store. -/
theorem C3_registry_storage_sync_witness :
    pdfPath "w" ∈ (prepare_pdf ⟨[], ∅⟩ "w" 3).fs :=
  C3_registry_storage_sync (Reachable.prepare _ "w" 3 Reachable.init)
    ("w", ⟨pdfPath "w", 3 + minutes 5⟩) (by decide)

/-- C4: one sweep at time `now` completes without error, removes exactly the
entries with `now > expires_at` (deleting each one's backing file, a missing
file being tolerated) together with their blobs, leaves every unexpired entry
and its file untouched, leaves no expired entry behind, and the sweep interval
is 300 s = 5 minutes. -/
theorem C4_sweep_spec (st : SysState) (now : Int) (hInv : Inv st) :
    ∃ st2, cleanup_sweep st now = some st2 ∧
      st2.token_store = st.token_store.filter (fun p => ¬ now > p.2.expires_at) ∧
      (∀ p ∈ st.token_store, now > p.2.expires_at → p.2.file ∉ st2.fs) ∧
      (∀ p ∈ st.token_store, ¬ now > p.2.expires_at →
        (p.1, p.2) ∈ st2.token_store ∧ (p.2.file ∈ st.fs → p.2.file ∈ st2.fs)) ∧
      (∀ p ∈ st2.token_store, ¬ now > p.2.expires_at) ∧
      sweep_interval_seconds = 5 * 60 := by
  obtain ⟨hnd, hfo, hsy⟩ := hInv
  obtain ⟨st2, hfold, hstore, hfs⟩ := foldlM_evictOne_spec (expiredTokens st.token_store now)
    st hnd (expiredTokens_nodup now hnd)
    (fun u hu => (expiredTokens_present hnd u hu).imp (fun e h => h.1))
  have hstore2 : st2.token_store =
      st.token_store.filter (fun p => ¬ now > p.2.expires_at) := by
    rw [hstore]
    refine List.filter_congr ?_
    intro p hp
    by_cases hx : now > p.2.expires_at
    · simp [hx, mem_expiredTokens_of hp hx]
    · simp [hx, not_mem_expiredTokens hnd hp hx]
  refine ⟨st2, hfold, hstore2, ?_, ?_, ?_, by decide⟩
  · intro p hp hx hc
    rw [hfs] at hc
    exact (Finset.mem_sdiff.mp hc).2
      (mem_filesOfList (mem_expiredTokens_of hp hx) (dictGet_of_mem hnd hp))
  · intro p hp hx
    refine ⟨?_, ?_⟩
    · rw [hstore2]
      exact List.mem_filter.mpr ⟨hp, by simpa using hx⟩
    · intro hfmem
      rw [hfs, Finset.mem_sdiff]
      refine ⟨hfmem, ?_⟩
      intro hc
      obtain ⟨u, hu, e2, hget2, hfile⟩ := mem_filesOfList_elim hc
      have hmem2 : (u, e2) ∈ st.token_store := dictGet_mem hget2
      have hkey : u = p.1 := file_key_eq hfo hmem2 hp hfile
      obtain ⟨e3, hget3, hexp3⟩ := expiredTokens_present hnd u hu
      rw [hget2] at hget3
      injection hget3 with h32
      have hgp : dictGet st.token_store p.1 = some p.2 := dictGet_of_mem hnd hp
      rw [hkey, hgp] at hget2
      injection hget2 with h2p
      rw [← h32] at hexp3
      rw [← h2p] at hexp3
      exact hx hexp3
  · intro p hp
    rw [hstore2] at hp
    simpa using List.of_mem_filter hp

/-- Witness for C4 on a two-entry store (one expired, one live) at time 100. -/
theorem C4_sweep_spec_witness :
    ∃ st2, cleanup_sweep
        ⟨[("a", ⟨pdfPath "a", 10⟩), ("b", ⟨pdfPath "b", 1000⟩)],
          {pdfPath "a", pdfPath "b"}⟩ 100 = some st2 ∧
      st2.token_store =
        [("a", ⟨pdfPath "a", 10⟩), ("b", ⟨pdfPath "b", 1000⟩)].filter
          (fun p => ¬ (100 : Int) > p.2.expires_at) ∧
      (∀ p ∈ [("a", (⟨pdfPath "a", 10⟩ : TokenEntry)), ("b", ⟨pdfPath "b", 1000⟩)],
        (100 : Int) > p.2.expires_at → p.2.file ∉ st2.fs) ∧
      (∀ p ∈ [("a", (⟨pdfPath "a", 10⟩ : TokenEntry)), ("b", ⟨pdfPath "b", 1000⟩)],
        ¬ (100 : Int) > p.2.expires_at →
        (p.1, p.2) ∈ st2.token_store ∧
          (p.2.file ∈ ({pdfPath "a", pdfPath "b"} : Finset String) →
            p.2.file ∈ st2.fs)) ∧
      (∀ p ∈ st2.token_store, ¬ (100 : Int) > p.2.expires_at) ∧
      sweep_interval_seconds = 5 * 60 :=
  C4_sweep_spec ⟨[("a", ⟨pdfPath "a", 10⟩), ("b", ⟨pdfPath "b", 1000⟩)],
    {pdfPath "a", pdfPath "b"}⟩ 100
    (by unfold Inv NodupKeys FilesOwned Synced keys; decide)

/-- C5 fails as stated: removing an already-removed registry entry is not a
no-op that never raises — `token_store.pop(t)` is called with no default, so
on an absent token it raises KeyError (modelled as `none`). -/
theorem C5_counterexample : dictPop ([] : TokenStore) "t" = none := rfl

/-- C5 amended: blob deletion is idempotent — the sweep's existence guard
makes deleting an already-deleted blob a no-op (eviction still succeeds and
storage is unchanged) — but registry deletion is not: popping an
already-removed entry raises KeyError; the sweep itself never hits that case
(its snapshot's tokens stay present until their delete call), so a full sweep
always completes. -/
theorem C5_deletion_idempotence (st : SysState) (t : Token) (e : TokenEntry) (now : Int)
    (hnd : NodupKeys st.token_store) (hget : dictGet st.token_store t = some e)
    (hgone : e.file ∉ st.fs) :
    (∃ store2, evictOne st t = some ⟨store2, st.fs⟩) ∧
    (∀ u : Token, dictGet st.token_store u = none → evictOne st u = none) ∧
    (∃ st2, cleanup_sweep st now = some st2) := by
  refine ⟨?_, ?_, cleanup_sweep_total st now hnd⟩
  · obtain ⟨store2, hpop, heq⟩ := evictOne_eq hget
    rw [Finset.erase_eq_of_not_mem hgone] at heq
    exact ⟨store2, heq⟩
  · intro u hu
    exact evictOne_absent hu

/-- Witness for C5 amended: one entry whose blob is already gone, at time 100. -/
theorem C5_deletion_idempotence_witness :
    (∃ store2, evictOne ⟨[("t", ⟨pdfPath "t", 10⟩)], ∅⟩ "t" = some ⟨store2, ∅⟩) ∧
    (∀ u : Token, dictGet ([("t", (⟨pdfPath "t", 10⟩ : TokenEntry))]) u = none →
      evictOne ⟨[("t", ⟨pdfPath "t", 10⟩)], ∅⟩ u = none) ∧
    (∃ st2, cleanup_sweep ⟨[("t", ⟨pdfPath "t", 10⟩)], ∅⟩ 100 = some st2) :=
  C5_deletion_idempotence ⟨[("t", ⟨pdfPath "t", 10⟩)], ∅⟩ "t" ⟨pdfPath "t", 10⟩ 100
    (by unfold NodupKeys keys; decide) (by decide) (by decide)

/-- C6 fails as stated: inserting under an already-present token does not fail
with DuplicateToken — `prepare_pdf` is total and silently replaces the
existing entry: after the second issue the store holds only the new entry. -/
theorem C6_counterexample :
    (prepare_pdf ⟨[("t", ⟨imagePath "t", 50⟩)], {imagePath "t"}⟩ "t" 0).token_store =
      [("t", ⟨pdfPath "t", 0 + minutes 5⟩)] ∧
    (⟨imagePath "t", 50⟩ : TokenEntry) ≠ ⟨pdfPath "t", 0 + minutes 5⟩ := by
  constructor
  · decide
  · decide

/-- C6 amended: registry insertion is total and never rejects: inserting under
an existing token silently replaces that entry (the subsequent lookup returns
the new entry) and leaves every other token's binding unchanged; no
DuplicateToken failure path exists. -/
theorem C6_silent_replace (s : TokenStore) (t t2 : Token) (e : TokenEntry)
    (hne : t2 ≠ t) :
    dictGet (dictSet s t e) t = some e ∧
    dictGet (dictSet s t e) t2 = dictGet s t2 :=
  ⟨dictGet_dictSet_self s t e, dictGet_dictSet_ne s e hne⟩

/-- Witness for C6 amended: replacing the entry of token "a". -/
theorem C6_silent_replace_witness :
    dictGet (dictSet [("a", ⟨pdfPath "a", 7⟩)] "a" ⟨pdfPath "a", 9⟩) "a" =
      some ⟨pdfPath "a", 9⟩ :=
  (C6_silent_replace [("a", ⟨pdfPath "a", 7⟩)] "a" "b" ⟨pdfPath "a", 9⟩ (by decide)).1

/-- C7: each issue endpoint sets `expires_at = now + ttl` with the policy
TTLs — 5 minutes for reimbursement forms and generated images, 10 minutes for
invoices — so every created entry expires strictly after its creation time. -/
theorem C7_ttl_policy (st : SysState) (t : Token) (now : Int) :
    dictGet (prepare_pdf st t now).token_store t = some ⟨pdfPath t, now + minutes 5⟩ ∧
    dictGet (create_invoice st t now).token_store t = some ⟨pdfPath t, now + minutes 10⟩ ∧
    dictGet (generate_image st t now).token_store t = some ⟨imagePath t, now + minutes 5⟩ ∧
    now + minutes 5 > now ∧ now + minutes 10 > now :=
  ⟨dictGet_dictSet_self st.token_store t ⟨pdfPath t, now + minutes 5⟩,
   dictGet_dictSet_self st.token_store t ⟨pdfPath t, now + minutes 10⟩,
   dictGet_dictSet_self st.token_store t ⟨imagePath t, now + minutes 5⟩,
   by simp only [minutes]; omega, by simp only [minutes]; omega⟩

/-- C8 fails as stated: with two expired entries whose files exist, and the
first file raising a storage error on deletion, the sweep body evaluates to
that error instead of swallowing it — the error propagates out of
`cleanup_expired_files` and the second expired entry is never reaped. -/
theorem C8_counterexample :
    cleanup_sweep_fallible {pdfPath "a"}
      ⟨[("a", ⟨pdfPath "a", 10⟩), ("b", ⟨pdfPath "b", 20⟩)],
        {pdfPath "a", pdfPath "b"}⟩ 100 = .error .storageError := rfl

/-- C8 amended: a storage error on blob deletion during the sweep is not
swallowed: whenever some expired entry's backing file is failing, the whole
sweep evaluates to the storage error (the loop has no handler), aborting the
sweep. -/
theorem C8_storage_error_propagates (failing : Finset String) (st : SysState) (now : Int)
    (t : Token) (e : TokenEntry) (hInv : Inv st) (hmem : (t, e) ∈ st.token_store)
    (hexp : now > e.expires_at) (hbad : e.file ∈ failing) :
    cleanup_sweep_fallible failing st now = .error .storageError := by
  obtain ⟨hnd, hfo, hsy⟩ := hInv
  exact foldlM_evictOneF_error failing _ st hnd (expiredTokens_nodup now hnd)
    (fun u hu => (expiredTokens_present hnd u hu).imp (fun e2 h => h.1))
    hfo hsy t (mem_expiredTokens_of hmem hexp) e (dictGet_of_mem hnd hmem) hbad

/-- Witness for C8 amended: one expired entry whose file fails to delete. -/
theorem C8_storage_error_propagates_witness :
    cleanup_sweep_fallible {imagePath "z"}
      ⟨[("z", ⟨imagePath "z", 5⟩)], {imagePath "z"}⟩ 99 = .error .storageError :=
  C8_storage_error_propagates {imagePath "z"} _ 99 "z" ⟨imagePath "z", 5⟩
    (by unfold Inv NodupKeys FilesOwned Synced keys; decide)
    (by decide) (by decide) (by decide)

/-- C9: Resolve on a live token is a pure read: when the token is present,
its file exists and `now ≤ expires_at`, every download endpoint returns the
file response and the state — registry (including `expires_at`), every other
entry and all files — is returned unchanged. -/
theorem C9_resolve_pure_read (st : SysState) (t : Token) (e : TokenEntry) (now : Int)
    (hget : dictGet st.token_store t = some e) (hf : e.file ∈ st.fs)
    (hlive : now ≤ e.expires_at) :
    download_pdf st t now =
      some (.fileResponse e.file "application/pdf" "reimbursement_form.pdf", st) ∧
    download_invoice st t now =
      some (.fileResponse e.file "application/pdf" "invoice.pdf", st) ∧
    download_image st t now =
      some (.fileResponse e.file "image/png" "generated.png", st) :=
  ⟨download_generic_live "application/pdf" "reimbursement_form.pdf" hget hf (not_lt.mpr hlive),
   download_generic_live "application/pdf" "invoice.pdf" hget hf (not_lt.mpr hlive),
   download_generic_live "image/png" "generated.png" hget hf (not_lt.mpr hlive)⟩

/-- Witness for C9 on a one-entry store, expiry 100, resolve at 50. -/
theorem C9_resolve_pure_read_witness :
    download_pdf ⟨[("t", ⟨pdfPath "t", 100⟩)], {pdfPath "t"}⟩ "t" 50 =
      some (.fileResponse (pdfPath "t") "application/pdf" "reimbursement_form.pdf",
        ⟨[("t", ⟨pdfPath "t", 100⟩)], {pdfPath "t"}⟩) :=
  (C9_resolve_pure_read ⟨[("t", ⟨pdfPath "t", 100⟩)], {pdfPath "t"}⟩ "t"
    ⟨pdfPath "t", 100⟩ 50 (by decide) (by decide) (by decide)).1

/-- C10: a registry entry whose backing file is missing yields 404 at every
time — even inside the TTL — with the state unchanged: the file-existence
check precedes the expiry check and no eviction takes place, the entry stays
in the registry. -/
theorem C10_missing_file_404 (st : SysState) (t : Token) (e : TokenEntry) (now : Int)
    (hget : dictGet st.token_store t = some e) (hf : e.file ∉ st.fs) :
    download_pdf st t now = some (.httpError 404 "Invalid or expired token", st) ∧
    download_image st t now = some (.httpError 404 "Invalid or expired token", st) :=
  ⟨download_generic_missing "application/pdf" "reimbursement_form.pdf" now hget hf,
   download_generic_missing "image/png" "generated.png" now hget hf⟩

/-- Witness for C10: entry present, file absent, queried long after expiry
(and the endpoint still answers 404, not 410, leaving the entry in place). -/
theorem C10_missing_file_404_witness :
    download_pdf ⟨[("t", ⟨pdfPath "t", 10⟩)], ∅⟩ "t" 1000 =
      some (.httpError 404 "Invalid or expired token",
        ⟨[("t", ⟨pdfPath "t", 10⟩)], ∅⟩) :=
  (C10_missing_file_404 ⟨[("t", ⟨pdfPath "t", 10⟩)], ∅⟩ "t" ⟨pdfPath "t", 10⟩ 1000
    (by decide) (by decide)).1

end ReimbGen
